import Mathlib

/-!
Verification development for the micropython webrepl helper (src/webrepl.py).

The source drives a browser-hosted webrepl terminal through a
connect / authenticate / ready handshake by repeatedly reading the rendered
terminal text and matching substrings, under bounded retries.  The shallow
embedding below models the asynchronously updating terminal pane as a stream
of snapshots, a function from read indices to the text that the read
returns: each access of the source's `element.text` consumes the next index.
Time-only effects of the source, namely `time.sleep` and the debug prints,
change no observable state of the model.  Keystroke and browser side effects
are recorded in an explicit action list.
-/

/-- Python's substring test `needle in hay`, on character lists. -/
def infixOfCh (needle : List Char) : List Char → Bool
  | [] => needle.isEmpty
  | c :: cs => needle.isPrefixOf (c :: cs) || infixOfCh needle cs

/-- Python's substring test `marker in s` for strings. -/
def textHas (s marker : String) : Bool := infixOfCh marker.data s.data

/-- Outcome of one handshake stage.  The source returns a bare bool; the
distinct return sites (timeout print, disconnect print, access-denied print,
success) are kept apart here, matching the spec's HandshakeOutcome. -/
inductive StageOutcome
  | success
  | timedOut
  | disconnected
  | denied
deriving DecidableEq

/-- Side effects of the source that are not terminal reads: selenium element
operations, keystroke injection via the keyboard library, and closing the
browser window. -/
inductive Act
  | clearField
  | sendKeys (s : String)
  | pressEnter
  | writeKeys (s : String)
  | pressCtrlB
  | closeBrowser
deriving DecidableEq

/-- Result of one stage: outcome, next unread snapshot index, number of
evaluations of the stage's target-marker condition (the polls), and the
emitted actions in order. -/
structure StageRes where
  out : StageOutcome
  next : Nat
  polls : Nat
  acts : List Act
deriving DecidableEq

/-- Loop of `wait_for_welcome_message` (src/webrepl.py:139-152).  One fuel
step is one iteration with `tries <= max_retries`; at fuel zero the guard
`tries > max_retries` fires after one more welcome check.  Each iteration
reads the terminal twice: once in the while condition and once, after the
sleep, in the Disconnected check. -/
def welcomeAux (snaps : Nat → String) : Nat → Nat → StageRes
  | 0, k =>
    if textHas (snaps k) ("Welcome") then ⟨.success, k + 1, 1, []⟩
    else ⟨.timedOut, k + 1, 1, []⟩
  | f + 1, k =>
    if textHas (snaps k) ("Welcome") then ⟨.success, k + 1, 1, []⟩
    else if textHas (snaps (k + 1)) ("Disconnected") then ⟨.disconnected, k + 2, 1, []⟩
    else
      let r := welcomeAux snaps f (k + 2)
      ⟨r.out, r.next, r.polls + 1, r.acts⟩

/-- Embedding of `wait_for_welcome_message(browser, interval, max_retries)`
(src/webrepl.py:129-152), reading the terminal from snapshot index k on.
The `interval` parameter only feeds `time.sleep` and is dropped. -/
def wait_for_welcome_message (snaps : Nat → String) (k maxRetries : Nat) : StageRes :=
  welcomeAux snaps (maxRetries + 1) k

/-- Tail of `enter_password` after the password prompt was seen
(src/webrepl.py:180-192): inject the password and a newline through the
keyboard library, sleep, then read once more for "Access denied". -/
def pwFound (snaps : Nat → String) (password : String) (k : Nat) : StageRes :=
  if textHas (snaps (k + 1)) ("Access denied") then
    ⟨.denied, k + 2, 1, [.writeKeys password, .writeKeys ("\n")]⟩
  else
    ⟨.success, k + 2, 1, [.writeKeys password, .writeKeys ("\n")]⟩

/-- Loop of `enter_password` (src/webrepl.py:169-178).  Unlike the welcome
loop, the Disconnected check precedes the retry check, so it also runs in
the final iteration; it still reads a fresh snapshot. -/
def pwAux (snaps : Nat → String) (password : String) : Nat → Nat → StageRes
  | 0, k =>
    if textHas (snaps k) ("Password") then pwFound snaps password k
    else if textHas (snaps (k + 1)) ("Disconnected") then ⟨.disconnected, k + 2, 1, []⟩
    else ⟨.timedOut, k + 2, 1, []⟩
  | f + 1, k =>
    if textHas (snaps k) ("Password") then pwFound snaps password k
    else if textHas (snaps (k + 1)) ("Disconnected") then ⟨.disconnected, k + 2, 1, []⟩
    else
      let r := pwAux snaps password f (k + 2)
      ⟨r.out, r.next, r.polls + 1, r.acts⟩

/-- Embedding of `enter_password(browser, password, interval, max_retries)`
(src/webrepl.py:157-192). -/
def enter_password (snaps : Nat → String) (password : String) (k maxRetries : Nat) : StageRes :=
  pwAux snaps password (maxRetries + 1) k

/-- Loop of `wait_for_repl_prompt` (src/webrepl.py:209-215).  The counter is
incremented before the retry check, so the guard fires inside iteration
`max_retries + 1`; each non-final iteration also reads the terminal in the
debug print. -/
def promptAux (snaps : Nat → String) : Nat → Nat → StageRes
  | 0, k =>
    if textHas (snaps k) (">>>") then ⟨.success, k + 1, 1, [.pressCtrlB]⟩
    else ⟨.timedOut, k + 2, 1, []⟩
  | f + 1, k =>
    if textHas (snaps k) (">>>") then ⟨.success, k + 1, 1, [.pressCtrlB]⟩
    else
      let r := promptAux snaps f (k + 2)
      ⟨r.out, r.next, r.polls + 1, r.acts⟩

/-- Embedding of `wait_for_repl_prompt(browser, max_retries)` (src/webrepl.py:197-222):
one initial Access-denied read, then the prompt loop; on success a single
ctrl+b keystroke leaves raw repl mode. -/
def wait_for_repl_prompt (snaps : Nat → String) (k maxRetries : Nat) : StageRes :=
  if textHas (snaps k) ("Access denied") then ⟨.denied, k + 1, 0, []⟩
  else promptAux snaps maxRetries (k + 1)

/-- Embedding of `start_session(browser, url)` (src/webrepl.py:115-124): clears the url
field, types the url into it and presses return.  No terminal reads. -/
def start_session (url : String) : List Act :=
  [.clearField, .sendKeys url, .pressEnter]

/-- Result of the launcher: whether a live browser handle is returned
(the source returns the webdriver instance or None), the next unread
snapshot index, and all emitted actions in order. -/
structure LaunchRes where
  handle : Bool
  next : Nat
  acts : List Act
deriving DecidableEq

/-- Embedding of `start_webrepl_with_selenium(url, password)` (src/webrepl.py:227-274)
from the point where the page is loaded: submit the url, then run the three
stages with their default `max_retries = 10`; on any stage failure close the
browser and return None, on success return the open browser handle. -/
def start_webrepl_with_selenium (snaps : Nat → String) (url password : String) : LaunchRes :=
  let a0 := start_session url
  let w := wait_for_welcome_message snaps 0 10
  if w.out = .success then
    let p := enter_password snaps password w.next 10
    if p.out = .success then
      let r := wait_for_repl_prompt snaps p.next 10
      if r.out = .success then ⟨true, r.next, a0 ++ w.acts ++ p.acts ++ r.acts⟩
      else ⟨false, r.next, a0 ++ w.acts ++ p.acts ++ r.acts ++ [.closeBrowser]⟩
    else ⟨false, p.next, a0 ++ w.acts ++ p.acts ++ [.closeBrowser]⟩
  else ⟨false, w.next, a0 ++ w.acts ++ [.closeBrowser]⟩

/-- Python's `ip.split(":", maxsplit=2)` (src/webrepl.py:103): split at the
first `budget` colons; `acc` holds the current field reversed. -/
def pySplitColon : Nat → List Char → List Char → List (List Char)
  | _, acc, [] => [acc.reverse]
  | budget, acc, c :: cs =>
    if c = ':' then
      match budget with
      | 0 => pySplitColon 0 (c :: acc) cs
      | b + 1 => acc.reverse :: pySplitColon b [] cs
    else pySplitColon budget (c :: acc) cs

/-- The (host, port-string) pair computed by `ip_to_url` before formatting
(src/webrepl.py:102-106).  `none` models the uncaught ValueError raised by
unpacking `ip, port = ip.split(":", maxsplit=2)` when the split yields more
than two fields.  A falsy (empty) port argument defaults to 8266. -/
def resolveEndpoint (ip port : String) : Option (String × String) :=
  if ':' ∈ ip.data then
    match pySplitColon 2 [] ip.data with
    | [h, p] => some (⟨h⟩, ⟨p⟩)
    | _ => none
  else
    some (ip, if port = ("") then ("8266") else port)

/-- The url format string of `ip_to_url` (src/webrepl.py:108). -/
def urlOfEndpoint (host portStr : String) : String :=
  ("ws://") ++ host ++ (":") ++ portStr ++ ("/")

/-- Embedding of `ip_to_url(ip, port)` (src/webrepl.py:92-110). -/
def ip_to_url (ip port : String) : Option String :=
  (resolveEndpoint ip port).map fun e => urlOfEndpoint e.1 e.2

/-- Decimal digit to character, as in Python's str of an int. -/
def digitChar : Nat → Char
  | 0 => '0'
  | 1 => '1'
  | 2 => '2'
  | 3 => '3'
  | 4 => '4'
  | 5 => '5'
  | 6 => '6'
  | 7 => '7'
  | 8 => '8'
  | _ => '9'

/-- Character to decimal digit; 10 for non-digit characters. -/
def charToDigit : Char → Nat
  | '0' => 0
  | '1' => 1
  | '2' => 2
  | '3' => 3
  | '4' => 4
  | '5' => 5
  | '6' => 6
  | '7' => 7
  | '8' => 8
  | '9' => 9
  | _ => 10

/-- Whether a character is a decimal digit (of the spec's port grammar). -/
def isDigitCh (c : Char) : Bool := decide (charToDigit c < 10)

/-- Little-endian decimal digits of n, with structural fuel. -/
def natDigitsAux : Nat → Nat → List Nat
  | 0, _ => []
  | _ + 1, 0 => []
  | f + 1, n + 1 => ((n + 1) % 10) :: natDigitsAux f ((n + 1) / 10)

/-- Little-endian decimal digits of n (empty for 0). -/
def natDigits (n : Nat) : List Nat := natDigitsAux n n

/-- Python's decimal rendering str(n) of a non-negative int. -/
def natToStr (n : Nat) : String :=
  if n = 0 then ("0") else ⟨(natDigits n).reverse.map digitChar⟩

/-- Value of a big-endian decimal digit string. -/
def decToNat (ds : List Char) : Nat :=
  ds.foldl (fun a c => 10 * a + charToDigit c) 0

/-- Splits a character list at its first colon: the part strictly before it
and the remainder including it ((cs, []) when there is no colon). -/
def takeUntilColon : List Char → List Char × List Char
  | [] => ([], [])
  | c :: cs =>
    if c = ':' then ([], c :: cs)
    else
      let r := takeUntilColon cs
      (c :: r.1, r.2)

/-- Modelled from the spec: a parser for the documented connection-url
grammar `ws://<host>:<port>/` (spec section 6), against which the
constructed url is checked; the port is the maximal digit run before the
trailing slash, so the last colon separates host and port. -/
def parseWsUrl (s : String) : Option (String × Nat) :=
  let cs := s.data
  if cs.take 5 = ("ws://").data then
    let rest := cs.drop 5
    if rest.getLast? = some '/' then
      let body := rest.dropLast
      let pr := takeUntilColon body.reverse
      if pr.2.head? = some ':' then
        let ds := pr.1.reverse
        if ds ≠ [] ∧ ds.all isDigitCh = true then some (⟨pr.2.tail.reverse⟩, decToNat ds)
        else none
      else none
    else none
  else none

/-- The rewritten-line marker of `start_webrepl_html` (src/webrepl.py:77):
a line is replaced exactly when it starts with this text. -/
def valueLineStart : String :=
  ("<input type=\"text\" name=\"webrepl_url\" id=\"url\" value=")

/-- The replacement line written by `start_webrepl_html`
(src/webrepl.py:78-80), with the url substituted. -/
def replLine (url : String) : List Char :=
  valueLineStart.data ++ (("\"") ++ url ++ ("\" />\n")).data

/-- Per-line transform of `start_webrepl_html` (src/webrepl.py:76-82). -/
def lineRewrite (url : String) (l : List Char) : List Char :=
  if valueLineStart.data.isPrefixOf l then replLine url else l

/-- Python's `readlines`: split after every newline character, keeping the
terminators; a last line without a terminator is kept as well. -/
def splitLinesCh : List Char → List (List Char)
  | [] => []
  | c :: cs =>
    if c = '\n' then ['\n'] :: splitLinesCh cs
    else
      match splitLinesCh cs with
      | [] => [[c]]
      | l :: ls => (c :: l) :: ls

/-- The file rewrite of `start_webrepl_html` (src/webrepl.py:72-82) as a
content transform: the page is read as lines, each line that starts with the
input-field declaration is replaced by the replacement line carrying the
url, all other lines are written back unchanged.  Reading and writing the
same path in place makes a second run act on this function's output. -/
def start_webrepl_html (url content : String) : String :=
  ⟨((splitLinesCh content.data).map (lineRewrite url)).flatten⟩

/-- A snapshot stream that shows the welcome message exactly at read t. -/
def lateWelcome (t : Nat) : Nat → String :=
  fun i => if i = t then ("Welcome") else ("")

/-- A stream showing the Disconnected marker at the welcome-condition reads
(the even ones) but never at the separate Disconnected-check reads. -/
def altDisc : Nat → String :=
  fun i => if i % 2 = 0 then ("Disconnected") else ("")

/-- A snapshot stream driving a fully successful handshake. -/
def readyStream : Nat → String :=
  fun i => if i = 0 then ("Welcome") else if i = 1 then ("Password") else
    if i = 2 then ("") else (">>>")

/-- Modelled from the spec: the predicate "the port-string is a positive
integer" of spec section 4.1, absent from the source. -/
def specPosIntStr (s : String) : Bool :=
  (!s.data.isEmpty) && s.data.all isDigitCh && decide (0 < decToNat s.data)

/-- Value of a little-endian decimal digit list. -/
def decVal : List Nat → Nat
  | [] => 0
  | d :: t => d + 10 * decVal t

/-- A line as produced by readlines: nonempty, with newlines possible only
as the final character. -/
def ProperLine (l : List Char) : Prop :=
  l ≠ [] ∧ ∀ c ∈ l.dropLast, ¬ c = '\n'

/-- The shape of a readlines result: proper lines, all but the last
terminated by a newline. -/
def LinesShape : List (List Char) → Prop
  | [] => True
  | [l] => ProperLine l
  | l :: l' :: ls => ProperLine l ∧ l.getLast? = some '\n' ∧ LinesShape (l' :: ls)

/-- A one-line page holding only the input-field declaration. -/
def pageNl : String := ⟨valueLineStart.data ++ ['\n']⟩

theorem welcomeAux_noMarkers (snaps : Nat → String)
    (hW : ∀ i, textHas (snaps i) ("Welcome") = false)
    (hD : ∀ i, textHas (snaps i) ("Disconnected") = false) :
    ∀ f k, welcomeAux snaps f k = ⟨.timedOut, k + 2 * f + 1, f + 1, []⟩ := by
  intro f
  induction f with
  | zero => intro k; simp [welcomeAux, hW]
  | succ f ih =>
    intro k
    simp only [welcomeAux, hW, hD, Bool.false_eq_true, if_false]
    rw [ih (k + 2)]
    simp only [StageRes.mk.injEq, and_true, true_and]
    omega

theorem welcomeAux_hitAt (snaps : Nat → String)
    (hD : ∀ i, textHas (snaps i) ("Disconnected") = false) :
    ∀ f k, (∀ i, textHas (snaps i) ("Welcome") = decide (i = k + 2 * f)) →
    welcomeAux snaps f k = ⟨.success, k + 2 * f + 1, f + 1, []⟩ := by
  intro f
  induction f with
  | zero =>
    intro k hW
    have h0 : textHas (snaps k) ("Welcome") = true := by
      rw [hW k]; simp
    simp [welcomeAux, h0]
  | succ f ih =>
    intro k hW
    have e : k + 2 * (f + 1) = k + 2 + 2 * f := by omega
    have hk : textHas (snaps k) ("Welcome") = false := by
      rw [hW k]
      simp only [decide_eq_false_iff_not]
      omega
    have hrec := ih (k + 2) (fun i => (hW i).trans (by rw [e]))
    simp only [welcomeAux, hk, hD, Bool.false_eq_true, if_false]
    rw [hrec]
    simp only [StageRes.mk.injEq, and_true, true_and]
    omega

theorem lateWelcome_noDisc (t : Nat) :
    ∀ i, textHas (lateWelcome t i) ("Disconnected") = false := by
  intro i
  by_cases h : i = t <;> simp [lateWelcome, h] <;> decide

theorem lateWelcome_hasW (t : Nat) :
    ∀ i, textHas (lateWelcome t i) ("Welcome") = decide (i = t) := by
  intro i
  by_cases h : i = t <;> simp [lateWelcome, h] <;> decide

/-- C1: the claim says the welcome stage with maxRetries = 10 performs
exactly 11 snapshot polls before returning the timeout failure.  On a
stream that never shows the welcome message it performs 12 polls of the
welcome condition (plus 11 further reads for the Disconnected check), so
the claim's count is off by one. -/
theorem welcome_retry_polls_counterexample :
    (wait_for_welcome_message (fun _ => ("")) 0 10).out = .timedOut ∧
    (wait_for_welcome_message (fun _ => ("")) 0 10).polls = 12 ∧
    ¬ (wait_for_welcome_message (fun _ => ("")) 0 10).polls = 11 := by
  decide

/-- C1 amended: on a stream showing neither marker, the welcome stage with
retry bound m polls the welcome condition exactly m + 2 times and returns
the timeout failure; and the (m + 2)-th welcome observation is the last one
allowed, since a stream showing the welcome message exactly at that read
still succeeds. -/
theorem welcome_retry_polls_amended :
    (∀ (snaps : Nat → String) (k m : Nat),
      (∀ i, textHas (snaps i) ("Welcome") = false) →
      (∀ i, textHas (snaps i) ("Disconnected") = false) →
      wait_for_welcome_message snaps k m = ⟨.timedOut, k + 2 * m + 3, m + 2, []⟩) ∧
    (∀ (k m : Nat),
      wait_for_welcome_message (lateWelcome (k + 2 * (m + 1))) k m =
        ⟨.success, k + 2 * m + 3, m + 2, []⟩) := by
  constructor
  · intro snaps k m hW hD
    unfold wait_for_welcome_message
    rw [welcomeAux_noMarkers snaps hW hD (m + 1) k]
    simp only [StageRes.mk.injEq, and_true, true_and]
    omega
  · intro k m
    unfold wait_for_welcome_message
    rw [welcomeAux_hitAt (lateWelcome (k + 2 * (m + 1))) (lateWelcome_noDisc _) (m + 1) k
      (lateWelcome_hasW _)]
    simp only [StageRes.mk.injEq, and_true, true_and]
    omega

theorem welcome_retry_polls_amended_witness :
    wait_for_welcome_message (fun _ => ("x")) 5 0 = ⟨.timedOut, 5 + 2 * 0 + 3, 0 + 2, []⟩ ∧
    wait_for_welcome_message (lateWelcome (0 + 2 * (0 + 1))) 0 0 =
      ⟨.success, 0 + 2 * 0 + 3, 0 + 2, []⟩ :=
  ⟨welcome_retry_polls_amended.1 (fun _ => ("x")) 5 0
      (fun i => by show textHas ("x") ("Welcome") = false; decide)
      (fun i => by show textHas ("x") ("Disconnected") = false; decide),
   welcome_retry_polls_amended.2 0 0⟩

/-- C2: the claim says the Disconnected marker is checked on every poll
before the retry-count check, so Disconnected appearing before the target
marker and before budget exhaustion always yields the Disconnected outcome.
In the welcome stage the code checks the marker after the retry check, on a
separate fresh read: on this stream Disconnected is present at the very
first poll (and the welcome marker never appears), yet the stage returns
the timeout failure. -/
theorem disconnected_priority_counterexample :
    textHas (altDisc 0) ("Disconnected") = true ∧
    textHas (altDisc 0) ("Welcome") = false ∧
    (wait_for_welcome_message altDisc 0 10).out = .timedOut ∧
    ¬ (wait_for_welcome_message altDisc 0 10).out = .disconnected := by
  decide

/-- C2 amended: the Disconnected marker is re-read once per iteration on a
separate snapshot (after the retry-count check in the welcome stage, before
it in the password stage); if that read shows Disconnected while the
stage's target marker was absent at the preceding target read, the stage
returns the Disconnected outcome, never the timeout. -/
theorem disconnected_priority_amended :
    ∀ (snaps : Nat → String) (pw : String) (k m : Nat),
      (textHas (snaps k) ("Welcome") = false →
        textHas (snaps (k + 1)) ("Disconnected") = true →
        (wait_for_welcome_message snaps k m).out = .disconnected) ∧
      (textHas (snaps k) ("Password") = false →
        textHas (snaps (k + 1)) ("Disconnected") = true →
        (enter_password snaps pw k m).out = .disconnected) := by
  intro snaps pw k m
  constructor
  · intro h1 h2
    simp [wait_for_welcome_message, welcomeAux, h1, h2]
  · intro h1 h2
    simp [enter_password, pwAux, h1, h2]

theorem disconnected_priority_amended_witness :
    (wait_for_welcome_message (fun i => if i = 1 then ("Disconnected") else ("")) 0 10).out =
      .disconnected ∧
    (enter_password (fun i => if i = 1 then ("Disconnected") else ("")) ("x") 0 10).out =
      .disconnected :=
  ⟨(disconnected_priority_amended (fun i => if i = 1 then ("Disconnected") else ("")) ("x") 0 10).1
      (by decide) (by decide),
   (disconnected_priority_amended (fun i => if i = 1 then ("Disconnected") else ("")) ("x") 0 10).2
      (by decide) (by decide)⟩

theorem welcomeAux_acts (snaps : Nat → String) :
    ∀ f k, (welcomeAux snaps f k).acts = [] := by
  intro f
  induction f with
  | zero =>
    intro k
    unfold welcomeAux
    split <;> rfl
  | succ f ih =>
    intro k
    unfold welcomeAux
    split
    · rfl
    · split
      · rfl
      · simpa using ih (k + 2)

theorem pwFound_acts (snaps : Nat → String) (pw : String) (k : Nat) :
    (pwFound snaps pw k).acts = [.writeKeys pw, .writeKeys ("\n")] := by
  unfold pwFound
  split <;> rfl

theorem pwAux_acts_cases (snaps : Nat → String) (pw : String) :
    ∀ f k, (pwAux snaps pw f k).acts = [] ∨
      (pwAux snaps pw f k).acts = [.writeKeys pw, .writeKeys ("\n")] := by
  intro f
  induction f with
  | zero =>
    intro k
    unfold pwAux
    split
    · exact Or.inr (pwFound_acts snaps pw k)
    · split
      · exact Or.inl rfl
      · exact Or.inl rfl
  | succ f ih =>
    intro k
    unfold pwAux
    split
    · exact Or.inr (pwFound_acts snaps pw k)
    · split
      · exact Or.inl rfl
      · simpa using ih (k + 2)

theorem pwAux_mem_password (snaps : Nat → String) (pw : String) :
    ∀ f k, (pwAux snaps pw f k).acts ≠ [] →
      ∃ i, k ≤ i ∧ textHas (snaps i) ("Password") = true := by
  intro f
  induction f with
  | zero =>
    intro k h
    unfold pwAux at h
    by_cases h1 : textHas (snaps k) ("Password") = true
    · exact ⟨k, le_refl k, h1⟩
    · rw [if_neg h1] at h
      split at h <;> simp at h
  | succ f ih =>
    intro k h
    unfold pwAux at h
    by_cases h1 : textHas (snaps k) ("Password") = true
    · exact ⟨k, le_refl k, h1⟩
    · rw [if_neg h1] at h
      split at h
      · simp at h
      · simp only at h
        obtain ⟨i, hi, hp⟩ := ih (k + 2) (by simpa using h)
        exact ⟨i, by omega, hp⟩

theorem promptAux_acts_all (snaps : Nat → String) :
    ∀ f k, ∀ a ∈ (promptAux snaps f k).acts, a = Act.pressCtrlB := by
  intro f
  induction f with
  | zero =>
    intro k a ha
    unfold promptAux at ha
    split at ha <;> simp at ha
    exact ha
  | succ f ih =>
    intro k a ha
    unfold promptAux at ha
    split at ha
    · simp at ha; exact ha
    · exact ih (k + 2) a (by simpa using ha)

theorem promptAux_success_acts (snaps : Nat → String) :
    ∀ f k, (promptAux snaps f k).out = .success →
      (promptAux snaps f k).acts = [Act.pressCtrlB] := by
  intro f
  induction f with
  | zero =>
    intro k h
    by_cases hc : textHas (snaps k) (">>>") = true
    · simp [promptAux, hc]
    · simp [promptAux, hc] at h
  | succ f ih =>
    intro k h
    by_cases hc : textHas (snaps k) (">>>") = true
    · simp [promptAux, hc]
    · simp only [promptAux, hc, Bool.false_eq_true, if_false] at h ⊢
      exact ih (k + 2) (by simpa using h)

theorem repl_prompt_acts_all (snaps : Nat → String) (k m : Nat) :
    ∀ a ∈ (wait_for_repl_prompt snaps k m).acts, a = Act.pressCtrlB := by
  unfold wait_for_repl_prompt
  split
  · intro a ha; simp at ha
  · exact promptAux_acts_all snaps m (k + 1)

theorem repl_prompt_success_acts (snaps : Nat → String) (k m : Nat) :
    (wait_for_repl_prompt snaps k m).out = .success →
    (wait_for_repl_prompt snaps k m).acts = [Act.pressCtrlB] := by
  unfold wait_for_repl_prompt
  split
  · intro h; simp at h
  · exact promptAux_success_acts snaps m (k + 1)

theorem close_count_session (url : String) :
    (start_session url).count Act.closeBrowser = 0 := rfl

theorem close_count_writes (pw : String) :
    ([Act.writeKeys pw, Act.writeKeys ("\n")]).count Act.closeBrowser = 0 := rfl

theorem close_count_pw (snaps : Nat → String) (pw : String) (f k : Nat) :
    ((pwAux snaps pw f k).acts).count Act.closeBrowser = 0 := by
  rcases pwAux_acts_cases snaps pw f k with h | h <;> rw [h]
  · rfl
  · exact close_count_writes pw

theorem close_notMem_prompt (snaps : Nat → String) (k m : Nat) :
    Act.closeBrowser ∉ (wait_for_repl_prompt snaps k m).acts := by
  intro hmem
  have := repl_prompt_acts_all snaps k m _ hmem
  simp at this

theorem close_count_prompt (snaps : Nat → String) (k m : Nat) :
    ((wait_for_repl_prompt snaps k m).acts).count Act.closeBrowser = 0 :=
  List.count_eq_zero.mpr (close_notMem_prompt snaps k m)

/-- C9: composing the three stages, the launcher closes the browser window
exactly when no stage failure leaves it returning None: on a failure run,
the close action appears exactly once, as the final action before the
failure value is returned; on the Ready run no close is emitted and the
live handle is returned. -/
theorem launcher_releases_surface (snaps : Nat → String) (url pw : String) :
    ((start_webrepl_with_selenium snaps url pw).acts.count Act.closeBrowser
      = if (start_webrepl_with_selenium snaps url pw).handle then 0 else 1) ∧
    (((start_webrepl_with_selenium snaps url pw).acts.getLast? = some Act.closeBrowser) ↔
      (start_webrepl_with_selenium snaps url pw).handle = false) := by
  have hwacts : (wait_for_welcome_message snaps 0 10).acts = [] := by
    unfold wait_for_welcome_message
    exact welcomeAux_acts snaps (10 + 1) 0
  set w := wait_for_welcome_message snaps 0 10 with hwdef
  by_cases hw : w.out = .success
  · set p := enter_password snaps pw w.next 10 with hpdef
    have hpcount : (p.acts).count Act.closeBrowser = 0 := by
      rw [hpdef]
      unfold enter_password
      exact close_count_pw snaps pw (10 + 1) w.next
    by_cases hp : p.out = .success
    · set r := wait_for_repl_prompt snaps p.next 10 with hrdef
      have hrcount : (r.acts).count Act.closeBrowser = 0 := close_count_prompt snaps p.next 10
      by_cases hr : r.out = .success
      · have hL : start_webrepl_with_selenium snaps url pw =
            ⟨true, r.next, start_session url ++ w.acts ++ p.acts ++ r.acts⟩ := by
          simp only [start_webrepl_with_selenium, ← hwdef, ← hpdef, ← hrdef, hw, hp, hr, if_true]
        rw [hL]
        have hracts : r.acts = [Act.pressCtrlB] := repl_prompt_success_acts snaps p.next 10 hr
        constructor
        · simp [List.count_append, hwacts, hpcount, hrcount, close_count_session]
        · rw [hwacts, hracts]
          constructor
          · intro hlast
            rw [List.getLast?_concat] at hlast
            simp at hlast
          · intro hfalse
            simp at hfalse
      · have hL : start_webrepl_with_selenium snaps url pw =
            ⟨false, r.next, start_session url ++ w.acts ++ p.acts ++ r.acts ++ [.closeBrowser]⟩ := by
          simp only [start_webrepl_with_selenium, ← hwdef, ← hpdef, ← hrdef, hw, hp, hr,
            if_true, if_false]
        rw [hL]
        constructor
        · simp [List.count_append, hwacts, hpcount, hrcount, close_count_session]
        · simp [List.getLast?_concat]
    · have hL : start_webrepl_with_selenium snaps url pw =
          ⟨false, p.next, start_session url ++ w.acts ++ p.acts ++ [.closeBrowser]⟩ := by
        simp only [start_webrepl_with_selenium, ← hwdef, ← hpdef, hw, hp, if_true, if_false]
      rw [hL]
      constructor
      · simp [List.count_append, hwacts, hpcount, close_count_session]
      · simp [List.getLast?_concat]
  · have hL : start_webrepl_with_selenium snaps url pw =
        ⟨false, w.next, start_session url ++ w.acts ++ [.closeBrowser]⟩ := by
      simp only [start_webrepl_with_selenium, ← hwdef, hw, if_false]
    rw [hL]
    constructor
    · simp [List.count_append, hwacts, close_count_session]
    · simp [List.getLast?_concat]

theorem writeKeys_notMem_session (url s : String) :
    Act.writeKeys s ∉ start_session url := by
  simp [start_session]

/-- C10: in a full launcher run, the password keystrokes are injected only
if the welcome stage succeeded and some snapshot read at or after the start
of the password stage contained the Password marker; contrapositively, a
run whose password-stage snapshots never show the marker, or whose welcome
stage failed, never injects the credentials. -/
theorem password_injection_guard (snaps : Nat → String) (url pw : String) :
    Act.writeKeys pw ∈ (start_webrepl_with_selenium snaps url pw).acts →
    (wait_for_welcome_message snaps 0 10).out = .success ∧
    ∃ i, (wait_for_welcome_message snaps 0 10).next ≤ i ∧
      textHas (snaps i) ("Password") = true := by
  have hwacts : (wait_for_welcome_message snaps 0 10).acts = [] := by
    unfold wait_for_welcome_message
    exact welcomeAux_acts snaps (10 + 1) 0
  set w := wait_for_welcome_message snaps 0 10 with hwdef
  intro hmem
  by_cases hw : w.out = .success
  · refine ⟨hw, ?_⟩
    set p := enter_password snaps pw w.next 10 with hpdef
    have hpw : Act.writeKeys pw ∈ p.acts →
        ∃ i, w.next ≤ i ∧ textHas (snaps i) ("Password") = true := by
      intro hin
      have hne : p.acts ≠ [] := List.ne_nil_of_mem hin
      rw [hpdef] at hne
      unfold enter_password at hne
      exact pwAux_mem_password snaps pw (10 + 1) w.next hne
    by_cases hp : p.out = .success
    · set r := wait_for_repl_prompt snaps p.next 10 with hrdef
      have hrmem : Act.writeKeys pw ∉ r.acts := by
        intro hin
        have := repl_prompt_acts_all snaps p.next 10 _ hin
        simp at this
      by_cases hr : r.out = .success
      · have hL : start_webrepl_with_selenium snaps url pw =
            ⟨true, r.next, start_session url ++ w.acts ++ p.acts ++ r.acts⟩ := by
          simp only [start_webrepl_with_selenium, ← hwdef, ← hpdef, ← hrdef, hw, hp, hr, if_true]
        rw [hL] at hmem
        simp only [List.mem_append] at hmem
        rcases hmem with ((hs | hwm) | hpm) | hrm
        · exact absurd hs (writeKeys_notMem_session url pw)
        · rw [hwacts] at hwm; simp at hwm
        · exact hpw hpm
        · exact absurd hrm hrmem
      · have hL : start_webrepl_with_selenium snaps url pw =
            ⟨false, r.next,
              start_session url ++ w.acts ++ p.acts ++ r.acts ++ [.closeBrowser]⟩ := by
          simp only [start_webrepl_with_selenium, ← hwdef, ← hpdef, ← hrdef, hw, hp, hr,
            if_true, if_false]
        rw [hL] at hmem
        simp only [List.mem_append] at hmem
        rcases hmem with (((hs | hwm) | hpm) | hrm) | hcl
        · exact absurd hs (writeKeys_notMem_session url pw)
        · rw [hwacts] at hwm; simp at hwm
        · exact hpw hpm
        · exact absurd hrm hrmem
        · simp at hcl
    · have hL : start_webrepl_with_selenium snaps url pw =
          ⟨false, p.next, start_session url ++ w.acts ++ p.acts ++ [.closeBrowser]⟩ := by
        simp only [start_webrepl_with_selenium, ← hwdef, ← hpdef, hw, hp, if_true, if_false]
      rw [hL] at hmem
      simp only [List.mem_append] at hmem
      rcases hmem with ((hs | hwm) | hpm) | hcl
      · exact absurd hs (writeKeys_notMem_session url pw)
      · rw [hwacts] at hwm; simp at hwm
      · exact hpw hpm
      · simp at hcl
  · have hL : start_webrepl_with_selenium snaps url pw =
        ⟨false, w.next, start_session url ++ w.acts ++ [.closeBrowser]⟩ := by
      simp only [start_webrepl_with_selenium, ← hwdef, hw, if_false]
    rw [hL] at hmem
    simp only [List.mem_append] at hmem
    rcases hmem with (hs | hwm) | hcl
    · exact absurd hs (writeKeys_notMem_session url pw)
    · rw [hwacts] at hwm; simp at hwm
    · simp at hcl

theorem password_injection_guard_witness :
    (wait_for_welcome_message readyStream 0 10).out = .success ∧
    ∃ i, (wait_for_welcome_message readyStream 0 10).next ≤ i ∧
      textHas (readyStream i) ("Password") = true :=
  password_injection_guard readyStream ("u") ("p") (by decide)

theorem pySplit_budget0 : ∀ (l acc : List Char), pySplitColon 0 acc l = [acc.reverse ++ l] := by
  intro l
  induction l with
  | nil => intro acc; simp [pySplitColon]
  | cons c cs ih =>
    intro acc
    by_cases hc : c = ':'
    · simp [pySplitColon, hc, ih, List.reverse_cons]
    · simp [pySplitColon, hc, ih, List.reverse_cons]

theorem pySplit_succ_first : ∀ (h : List Char), ':' ∉ h →
    ∀ (b : Nat) (acc t : List Char),
      pySplitColon (b + 1) acc (h ++ ':' :: t) = (acc.reverse ++ h) :: pySplitColon b [] t := by
  intro h
  induction h with
  | nil => intro _ b acc t; simp [pySplitColon]
  | cons c h ih =>
    intro hnc b acc t
    have hc : ¬ c = ':' := by
      intro e
      exact hnc (by rw [e]; exact List.mem_cons_self _ _)
    have hrest : ':' ∉ h := fun e => hnc (List.mem_cons_of_mem c e)
    simp [pySplitColon, hc, ih hrest, List.reverse_cons]

theorem pySplit_noColon : ∀ (l : List Char), ':' ∉ l →
    ∀ (b : Nat) (acc : List Char), pySplitColon b acc l = [acc.reverse ++ l] := by
  intro l
  induction l with
  | nil => intro _ b acc; simp [pySplitColon]
  | cons c cs ih =>
    intro hnc b acc
    have hc : ¬ c = ':' := by
      intro e
      exact hnc (by rw [e]; exact List.mem_cons_self _ _)
    have hrest : ':' ∉ cs := fun e => hnc (List.mem_cons_of_mem c e)
    simp [pySplitColon, hc, ih hrest, List.reverse_cons]

theorem firstColon_decomp : ∀ l : List Char, ':' ∈ l →
    ∃ h t, l = h ++ ':' :: t ∧ ':' ∉ h := by
  intro l
  induction l with
  | nil => intro hmem; simp at hmem
  | cons c cs ih =>
    intro hmem
    by_cases hc : c = ':'
    · subst hc
      exact ⟨[], cs, rfl, by simp⟩
    · have hcs : ':' ∈ cs := by
        rcases List.mem_cons.mp hmem with e | e
        · exact absurd e.symm hc
        · exact e
      obtain ⟨h, t, he, hh⟩ := ih hcs
      refine ⟨c :: h, t, by rw [he]; rfl, ?_⟩
      intro hccs
      rcases List.mem_cons.mp hccs with e | e
      · exact hc e.symm
      · exact hh e

theorem resolveEndpoint_one_colon (h t : List Char) (port : String)
    (hh : ':' ∉ h) (ht : ':' ∉ t) :
    resolveEndpoint ⟨h ++ ':' :: t⟩ port = some (⟨h⟩, ⟨t⟩) := by
  have hmem : ':' ∈ (String.mk (h ++ ':' :: t)).data := by
    show ':' ∈ h ++ ':' :: t
    exact List.mem_append.mpr (Or.inr (List.mem_cons_self _ _))
  simp only [resolveEndpoint, if_pos hmem]
  have hsplit : pySplitColon 2 [] (String.mk (h ++ ':' :: t)).data = [h, t] := by
    show pySplitColon 2 [] (h ++ ':' :: t) = [h, t]
    rw [pySplit_succ_first h hh 1 [] t, pySplit_noColon t ht 1 []]
    simp
  rw [hsplit]

theorem resolveEndpoint_two_colons (h t : List Char) (port : String)
    (hh : ':' ∉ h) (ht : ':' ∈ t) :
    resolveEndpoint ⟨h ++ ':' :: t⟩ port = none := by
  have hmem : ':' ∈ (String.mk (h ++ ':' :: t)).data := by
    show ':' ∈ h ++ ':' :: t
    exact List.mem_append.mpr (Or.inr (List.mem_cons_self _ _))
  obtain ⟨t1, t2, he, h1⟩ := firstColon_decomp t ht
  simp only [resolveEndpoint, if_pos hmem]
  have hsplit : pySplitColon 2 [] (String.mk (h ++ ':' :: t)).data = [h, t1, t2] := by
    show pySplitColon 2 [] (h ++ ':' :: t) = [h, t1, t2]
    rw [pySplit_succ_first h hh 1 [] t, he, pySplit_succ_first t1 h1 0 [] t2,
      pySplit_budget0 t2 []]
    simp
  rw [hsplit]

/-- C3: resolving an address without a separator uses the default port 8266
when no explicit port is passed; an embedded port is taken verbatim; and
whenever the input contains a separator the result is entirely independent
of the explicit port argument. -/
theorem resolve_endpoint_defaults :
    resolveEndpoint ("192.168.1.5") ("") = some (("192.168.1.5"), ("8266")) ∧
    (∀ p, resolveEndpoint ("192.168.1.5:1111") p = some (("192.168.1.5"), ("1111"))) ∧
    (∀ ip p1 p2, ':' ∈ ip.data → resolveEndpoint ip p1 = resolveEndpoint ip p2) := by
  refine ⟨by decide, fun p => rfl, fun ip p1 p2 hmem => ?_⟩
  simp only [resolveEndpoint, if_pos hmem]

theorem resolve_endpoint_defaults_witness :
    resolveEndpoint ("a:b") ("x") = resolveEndpoint ("a:b") ("y") :=
  resolve_endpoint_defaults.2.2 ("a:b") ("x") ("y") (by decide)

/-- C4: the claim says any input with one or more separators is split at the
first separator only, the port-string keeping everything after it.  The
source splits with maxsplit=2 and unpacks into exactly two variables, so an
input with two separators raises ValueError (modelled as none) instead of
yielding host "1" and port-string "2:3". -/
theorem resolve_split_counterexample :
    resolveEndpoint ("1:2:3") ("") = none ∧
    ¬ resolveEndpoint ("1:2:3") ("") = some (("1"), ("2:3")) := by
  decide

/-- C4 amended: an input with exactly one separator is split there, host
before and port-string after; an input with two or more separators makes
the unpacking of the split fail (an uncaught ValueError), producing no
endpoint at all. -/
theorem resolve_split_amended :
    ∀ (h t : List Char) (port : String), ':' ∉ h →
      ((':' ∉ t → resolveEndpoint ⟨h ++ ':' :: t⟩ port = some (⟨h⟩, ⟨t⟩)) ∧
       (':' ∈ t → resolveEndpoint ⟨h ++ ':' :: t⟩ port = none)) :=
  fun h t port hh =>
    ⟨fun ht => resolveEndpoint_one_colon h t port hh ht,
     fun ht => resolveEndpoint_two_colons h t port hh ht⟩

theorem resolve_split_amended_witness :
    resolveEndpoint ⟨['a', ':', 'b']⟩ ("") = some (⟨['a']⟩, ⟨['b']⟩) ∧
    resolveEndpoint ⟨['a', ':', 'b', ':', 'c']⟩ ("") = none :=
  ⟨(resolve_split_amended ['a'] ['b'] ("") (by decide)).1 (by decide),
   (resolve_split_amended ['a'] ['b', ':', 'c'] ("") (by decide)).2 (by decide)⟩

/-- C5: the claim says resolve fails with InvalidAddress whenever the
port-string is not a positive integer.  The source never validates the
port-string: a non-numeric embedded port is accepted and passed through. -/
theorem resolve_port_validation_counterexample :
    resolveEndpoint ("1.2.3.4:abc") ("") = some (("1.2.3.4"), ("abc")) ∧
    specPosIntStr ("abc") = false := by
  decide

/-- C5 amended: resolve performs no port validation at all; it succeeds
exactly when the input contains at most one separator, whatever the
port-string holds, and it never fails with InvalidAddress. -/
theorem resolve_no_validation_amended :
    ∀ ip port, (resolveEndpoint ip port).isSome = decide (ip.data.count ':' ≤ 1) := by
  intro ip port
  by_cases hmem : ':' ∈ ip.data
  · obtain ⟨h, t, he, hh⟩ := firstColon_decomp ip.data hmem
    have hip : ip = ⟨h ++ ':' :: t⟩ := by
      cases ip with
      | mk d => exact congrArg String.mk he
    have hch : List.count ':' h = 0 := List.count_eq_zero.mpr hh
    by_cases ht : ':' ∈ t
    · rw [hip, resolveEndpoint_two_colons h t port hh ht]
      have hct : 0 < List.count ':' t := List.count_pos_iff.mpr ht
      have : ¬ ((String.mk (h ++ ':' :: t)).data.count ':' ≤ 1) := by
        show ¬ ((h ++ ':' :: t).count ':' ≤ 1)
        rw [List.count_append, List.count_cons_self, hch]
        omega
      rw [decide_eq_false this]
      rfl
    · rw [hip, resolveEndpoint_one_colon h t port hh ht]
      have hct : List.count ':' t = 0 := List.count_eq_zero.mpr ht
      have : (String.mk (h ++ ':' :: t)).data.count ':' ≤ 1 := by
        show (h ++ ':' :: t).count ':' ≤ 1
        rw [List.count_append, List.count_cons_self, hch, hct]
      rw [decide_eq_true this]
      rfl
  · have hc : ip.data.count ':' = 0 := List.count_eq_zero.mpr hmem
    simp only [resolveEndpoint, if_neg hmem]
    simp [hc]

theorem natDigitsAux_lt : ∀ (f n d : Nat), d ∈ natDigitsAux f n → d < 10 := by
  intro f
  induction f with
  | zero => intro n d hd; simp [natDigitsAux] at hd
  | succ f ih =>
    intro n d hd
    cases n with
    | zero => simp [natDigitsAux] at hd
    | succ m =>
      simp only [natDigitsAux, List.mem_cons] at hd
      rcases hd with e | e
      · subst e; omega
      · exact ih ((m + 1) / 10) d e

theorem natDigitsAux_val : ∀ (f n : Nat), n ≤ f → decVal (natDigitsAux f n) = n := by
  intro f
  induction f with
  | zero =>
    intro n h
    have : n = 0 := by omega
    subst this
    rfl
  | succ f ih =>
    intro n h
    cases n with
    | zero => rfl
    | succ m =>
      show decVal (((m + 1) % 10) :: natDigitsAux f ((m + 1) / 10)) = m + 1
      simp only [decVal]
      rw [ih ((m + 1) / 10) (by omega)]
      omega

theorem foldl_rev_decVal : ∀ l : List Nat,
    List.foldl (fun a d => 10 * a + d) 0 l.reverse = decVal l := by
  intro l
  induction l with
  | nil => rfl
  | cons d t ih =>
    simp only [List.reverse_cons, List.foldl_append, List.foldl_cons, List.foldl_nil, ih, decVal]
    omega

theorem charToDigit_digitChar : ∀ d : Nat, d < 10 → charToDigit (digitChar d) = d := by
  intro d h
  interval_cases d <;> rfl

theorem foldl_map_digitChar : ∀ (l : List Nat), (∀ d ∈ l, d < 10) → ∀ a : Nat,
    List.foldl (fun x c => 10 * x + charToDigit c) a (l.map digitChar) =
    List.foldl (fun x d => 10 * x + d) a l := by
  intro l
  induction l with
  | nil => intro _ a; rfl
  | cons d t ih =>
    intro hd a
    simp only [List.map_cons, List.foldl_cons]
    rw [charToDigit_digitChar d (hd d (List.mem_cons_self _ _))]
    exact ih (fun x hx => hd x (List.mem_cons_of_mem _ hx)) _

theorem decToNat_natToStr (p : Nat) : decToNat (natToStr p).data = p := by
  by_cases hp : p = 0
  · subst hp; rfl
  · unfold natToStr
    rw [if_neg hp]
    show List.foldl (fun x c => 10 * x + charToDigit c) 0 ((natDigits p).reverse.map digitChar)
      = p
    rw [foldl_map_digitChar ((natDigits p).reverse)
      (fun d hd => natDigitsAux_lt p p d (List.mem_reverse.mp hd)) 0]
    rw [foldl_rev_decVal (natDigits p)]
    exact natDigitsAux_val p p (le_refl p)

theorem natToStr_all_digit (p : Nat) : ∀ c ∈ (natToStr p).data, isDigitCh c = true := by
  by_cases hp : p = 0
  · subst hp
    intro c hc
    have : c = '0' := by simpa [natToStr] using hc
    subst this
    rfl
  · unfold natToStr
    rw [if_neg hp]
    intro c hc
    have hc' : c ∈ (natDigits p).reverse.map digitChar := hc
    obtain ⟨d, hd, he⟩ := List.mem_map.mp hc'
    have hlt : d < 10 := natDigitsAux_lt p p d (List.mem_reverse.mp hd)
    subst he
    unfold isDigitCh
    rw [charToDigit_digitChar d hlt]
    exact decide_eq_true hlt

theorem natToStr_ne_nil (p : Nat) : (natToStr p).data ≠ [] := by
  by_cases hp : p = 0
  · subst hp; simp [natToStr]
  · unfold natToStr
    rw [if_neg hp]
    show (natDigits p).reverse.map digitChar ≠ []
    simp only [ne_eq, List.map_eq_nil_iff, List.reverse_eq_nil_iff]
    cases p with
    | zero => exact absurd rfl hp
    | succ m => simp [natDigits, natDigitsAux]

theorem digit_ne_colon : ∀ c : Char, isDigitCh c = true → ¬ c = ':' := by
  intro c h e
  subst e
  exact absurd h (by decide)

theorem takeUntilColon_append : ∀ (a b : List Char), (∀ c ∈ a, ¬ c = ':') →
    takeUntilColon (a ++ ':' :: b) = (a, ':' :: b) := by
  intro a
  induction a with
  | nil => intro b _; simp [takeUntilColon]
  | cons c a ih =>
    intro b ha
    have hc : ¬ c = ':' := ha c (List.mem_cons_self _ _)
    have ha' : ∀ x ∈ a, ¬ x = ':' := fun x hx => ha x (List.mem_cons_of_mem _ hx)
    simp [takeUntilColon, hc, ih b ha']

theorem string_eta (s : String) : String.mk s.data = s := by
  cases s
  rfl

/-- C6: for every endpoint host and integer port, the constructed url is
exactly ws://host:port/ and parsing it back under the documented grammar
recovers the same host and port. -/
theorem url_round_trip : ∀ (host : String) (p : Nat),
    parseWsUrl (urlOfEndpoint host (natToStr p)) = some (host, p) := by
  intro host p
  have hdata : (urlOfEndpoint host (natToStr p)).data =
      ("ws://").data ++ ((host.data ++ ':' :: (natToStr p).data) ++ ['/']) := by
    simp [urlOfEndpoint, String.data_append, List.append_assoc]
  have hlen : (("ws://").data).length = 5 := rfl
  have h5 : (("ws://").data ++ ((host.data ++ ':' :: (natToStr p).data) ++ ['/'])).take 5 =
      ("ws://").data := by
    rw [← hlen, List.take_left]
  have hdrop : (("ws://").data ++ ((host.data ++ ':' :: (natToStr p).data) ++ ['/'])).drop 5 =
      (host.data ++ ':' :: (natToStr p).data) ++ ['/'] := by
    rw [← hlen, List.drop_left]
  have hrev : (host.data ++ ':' :: (natToStr p).data).reverse =
      (natToStr p).data.reverse ++ ':' :: host.data.reverse := by
    rw [List.reverse_append, List.reverse_cons, List.append_assoc, List.singleton_append]
  have hnc : ∀ c ∈ (natToStr p).data.reverse, ¬ c = ':' :=
    fun c hc => digit_ne_colon c (natToStr_all_digit p c (List.mem_reverse.mp hc))
  have hall : (natToStr p).data.all isDigitCh = true :=
    List.all_eq_true.mpr (natToStr_all_digit p)
  simp only [parseWsUrl]
  rw [hdata, h5, if_pos rfl, hdrop, List.getLast?_concat, if_pos rfl, List.dropLast_concat,
    hrev, takeUntilColon_append ((natToStr p).data.reverse) (host.data.reverse) hnc]
  simp only [List.head?_cons, List.tail_cons, List.reverse_reverse]
  rw [if_pos trivial, if_pos (And.intro (natToStr_ne_nil p) hall), string_eta,
    decToNat_natToStr]

theorem splitLinesCh_cons (c : Char) (cs : List Char) :
    splitLinesCh (c :: cs) =
      if c = '\n' then ['\n'] :: splitLinesCh cs
      else
        match splitLinesCh cs with
        | [] => [[c]]
        | l :: ls => (c :: l) :: ls := rfl

theorem splitLinesCh_eq_nil_iff : ∀ cs : List Char, splitLinesCh cs = [] ↔ cs = [] := by
  intro cs
  cases cs with
  | nil => simp [splitLinesCh]
  | cons c t =>
    rw [splitLinesCh_cons]
    constructor
    · intro h
      by_cases hc : c = '\n'
      · rw [if_pos hc] at h
        exact absurd h (by simp)
      · rw [if_neg hc] at h
        cases hsplit : splitLinesCh t with
        | nil => rw [hsplit] at h; exact absurd h (by simp)
        | cons l ls => rw [hsplit] at h; exact absurd h (by simp)
    · intro h
      exact absurd h (by simp)

theorem flatten_splitLinesCh : ∀ cs : List Char, (splitLinesCh cs).flatten = cs := by
  intro cs
  induction cs with
  | nil => rfl
  | cons c t ih =>
    by_cases hc : c = '\n'
    · subst hc
      rw [splitLinesCh_cons, if_pos rfl]
      simp only [List.flatten_cons, List.singleton_append]
      rw [ih]
    · rw [splitLinesCh_cons, if_neg hc]
      cases h : splitLinesCh t with
      | nil =>
        have ht : t = [] := (splitLinesCh_eq_nil_iff t).mp h
        subst ht
        rfl
      | cons l ls =>
        show ((c :: l) :: ls).flatten = c :: t
        have hflat : (l :: ls).flatten = t := by rw [← h, ih]
        simp only [List.flatten_cons, List.cons_append] at hflat ⊢
        rw [hflat]

theorem properLine_cons {c : Char} {l : List Char} (hc : ¬ c = '\n') (hl : ProperLine l) :
    ProperLine (c :: l) := by
  obtain ⟨hne, hdl⟩ := hl
  cases l with
  | nil => exact absurd rfl hne
  | cons x xs =>
    refine ⟨by simp, ?_⟩
    intro y hy
    rw [List.dropLast_cons₂] at hy
    rcases List.mem_cons.mp hy with e | e
    · subst e; exact hc
    · exact hdl y e

theorem properLine_single (c : Char) : ProperLine [c] :=
  ⟨by simp, by simp⟩

theorem linesShape_split : ∀ cs : List Char, LinesShape (splitLinesCh cs) := by
  intro cs
  induction cs with
  | nil => trivial
  | cons c t ih =>
    by_cases hc : c = '\n'
    · subst hc
      rw [splitLinesCh_cons, if_pos rfl]
      cases h : splitLinesCh t with
      | nil => exact properLine_single '\n'
      | cons l ls =>
        rw [h] at ih
        exact ⟨properLine_single '\n', rfl, ih⟩
    · rw [splitLinesCh_cons, if_neg hc]
      cases h : splitLinesCh t with
      | nil => exact properLine_single c
      | cons l ls =>
        rw [h] at ih
        cases ls with
        | nil =>
          have hp : ProperLine l := ih
          exact properLine_cons hc hp
        | cons l' ls' =>
          obtain ⟨hp, hl, hrest⟩ := ih
          refine ⟨properLine_cons hc hp, ?_, hrest⟩
          cases l with
          | nil => exact absurd rfl hp.1
          | cons x xs => rw [List.getLast?_cons_cons]; exact hl

theorem splitLinesCh_append_line : ∀ l : List Char, ProperLine l → l.getLast? = some '\n' →
    ∀ X, splitLinesCh (l ++ X) = l :: splitLinesCh X := by
  intro l
  induction l with
  | nil => intro hp _ _; exact absurd rfl hp.1
  | cons c t ih =>
    intro hp hl X
    cases t with
    | nil =>
      have hc : c = '\n' := by simpa using hl
      subst hc
      show splitLinesCh ('\n' :: X) = ['\n'] :: splitLinesCh X
      rw [splitLinesCh_cons, if_pos rfl]
    | cons c' t' =>
      have hc : ¬ c = '\n' := by
        apply hp.2 c
        rw [List.dropLast_cons₂]
        exact List.mem_cons_self _ _
      have hp' : ProperLine (c' :: t') := by
        refine ⟨by simp, ?_⟩
        intro y hy
        apply hp.2 y
        rw [List.dropLast_cons₂]
        exact List.mem_cons_of_mem _ hy
      have hl' : (c' :: t').getLast? = some '\n' := by
        rw [List.getLast?_cons_cons] at hl
        exact hl
      show splitLinesCh (c :: ((c' :: t') ++ X)) = (c :: c' :: t') :: splitLinesCh X
      rw [splitLinesCh_cons, if_neg hc, ih hp' hl' X]

theorem splitLinesCh_noNl : ∀ l : List Char, l ≠ [] → (∀ c ∈ l, ¬ c = '\n') →
    splitLinesCh l = [l] := by
  intro l
  induction l with
  | nil => intro h _; exact absurd rfl h
  | cons c t ih =>
    intro _ hall
    have hc : ¬ c = '\n' := hall c (List.mem_cons_self _ _)
    cases t with
    | nil => simp [splitLinesCh, hc]
    | cons c' t' =>
      have hrec := ih (by simp) (fun x hx => hall x (List.mem_cons_of_mem _ hx))
      rw [splitLinesCh_cons, if_neg hc, hrec]

theorem splitLinesCh_flatten : ∀ ls : List (List Char), LinesShape ls →
    splitLinesCh ls.flatten = ls := by
  intro ls
  induction ls with
  | nil => intro _; rfl
  | cons l ls ih =>
    intro hs
    cases ls with
    | nil =>
      have hp : ProperLine l := hs
      by_cases hl : l.getLast? = some '\n'
      · have := splitLinesCh_append_line l hp hl []
        simpa using this
      · have hall : ∀ c ∈ l, ¬ c = '\n' := by
          intro c hc e
          subst e
          have heq := List.dropLast_append_getLast hp.1
          rw [← heq] at hc
          rcases List.mem_append.mp hc with e1 | e1
          · exact hp.2 '\n' e1 rfl
          · have e2 : l.getLast hp.1 = '\n' := by
              have := List.mem_singleton.mp e1
              exact this.symm
            have : l.getLast? = some '\n' := by
              rw [List.getLast?_eq_getLast l hp.1, e2]
            exact hl this
        have := splitLinesCh_noNl l hp.1 hall
        simpa using this
    | cons l' ls' =>
      obtain ⟨hp, hl, hrest⟩ := hs
      show splitLinesCh (l ++ (l' :: ls').flatten) = l :: l' :: ls'
      rw [splitLinesCh_append_line l hp hl, ih hrest]

theorem isPrefixOf_self_append : ∀ a b : List Char, a.isPrefixOf (a ++ b) = true := by
  intro a
  induction a with
  | nil => intro b; cases b <;> rfl
  | cons c t ih => intro b; simp [List.isPrefixOf, ih b]

theorem valueLine_isPrefixOf_replLine (url : String) :
    valueLineStart.data.isPrefixOf (replLine url) = true := by
  unfold replLine
  exact isPrefixOf_self_append _ _

theorem replLine_eq (url : String) :
    replLine url = (valueLineStart.data ++ '"' :: url.data ++ ['"', ' ', '/', '>']) ++ ['\n'] := by
  have h1 : ("\"" : String).data = ['"'] := rfl
  have h2 : ("\" />\n" : String).data = ['"', ' ', '/', '>', '\n'] := rfl
  simp [replLine, String.data_append, h1, h2, List.append_assoc]

theorem replLine_proper (url : String) (hu : '\n' ∉ url.data) :
    ProperLine (replLine url) ∧ (replLine url).getLast? = some '\n' := by
  rw [replLine_eq url]
  refine ⟨⟨by simp, ?_⟩, List.getLast?_concat _⟩
  rw [List.dropLast_concat]
  intro c hc e
  subst e
  rcases List.mem_append.mp hc with e1 | e1
  · rcases List.mem_append.mp e1 with e2 | e2
    · exact absurd e2 (by decide)
    · rcases List.mem_cons.mp e2 with e3 | e3
      · exact absurd e3 (by decide)
      · exact hu e3
  · exact absurd e1 (by decide)

theorem lineRewrite_proper (url : String) (hu : '\n' ∉ url.data) {l : List Char}
    (hp : ProperLine l) : ProperLine (lineRewrite url l) := by
  unfold lineRewrite
  split
  · exact (replLine_proper url hu).1
  · exact hp

theorem lineRewrite_last (url : String) (hu : '\n' ∉ url.data) {l : List Char}
    (hl : l.getLast? = some '\n') : (lineRewrite url l).getLast? = some '\n' := by
  unfold lineRewrite
  split
  · exact (replLine_proper url hu).2
  · exact hl

theorem linesShape_map (url : String) (hu : '\n' ∉ url.data) :
    ∀ ls, LinesShape ls → LinesShape (ls.map (lineRewrite url)) := by
  intro ls
  induction ls with
  | nil => intro _; trivial
  | cons l ls ih =>
    intro hs
    cases ls with
    | nil => exact lineRewrite_proper url hu hs
    | cons l' ls' =>
      obtain ⟨hp, hl, hrest⟩ := hs
      exact ⟨lineRewrite_proper url hu hp, lineRewrite_last url hu hl, ih hrest⟩

theorem lineRewrite_idem (url : String) (l : List Char) :
    lineRewrite url (lineRewrite url l) = lineRewrite url l := by
  unfold lineRewrite
  by_cases h : valueLineStart.data.isPrefixOf l = true
  · rw [if_pos h, if_pos (valueLine_isPrefixOf_replLine url)]
  · rw [if_neg h, if_neg h]

theorem splitLines_rewrite (url content : String) (hu : '\n' ∉ url.data) :
    splitLinesCh (start_webrepl_html url content).data =
      (splitLinesCh content.data).map (lineRewrite url) := by
  show splitLinesCh ((splitLinesCh content.data).map (lineRewrite url)).flatten = _
  exact splitLinesCh_flatten _ (linesShape_map url hu _ (linesShape_split content.data))

/-- C8: for a connection url free of line terminators, the provisioned page
splits into exactly the input's lines with each line that starts with the
input-field declaration replaced by the replacement line carrying the url,
and every other line passed through byte for byte. -/
theorem page_rewrite_lines : ∀ (url content : String), '\n' ∉ url.data →
    splitLinesCh (start_webrepl_html url content).data =
      (splitLinesCh content.data).map (lineRewrite url) :=
  fun url content hu => splitLines_rewrite url content hu

theorem page_rewrite_lines_witness :
    splitLinesCh (start_webrepl_html ("ws://a:1/") pageNl).data =
      (splitLinesCh pageNl.data).map (lineRewrite ("ws://a:1/")) :=
  page_rewrite_lines ("ws://a:1/") pageNl (by decide)

/-- C7: the claim quantifies over every page content and every Endpoint.
For the endpoint with host "H\nH" and port 1 the canonical url embeds a
newline, the replacement line then spans two lines of the written file, and
a second provisioning run rewrites its first half again: the twice-run file
differs from the once-run file. -/
theorem provision_idem_counterexample :
    ¬ start_webrepl_html (urlOfEndpoint ("H\nH") (natToStr 1))
        (start_webrepl_html (urlOfEndpoint ("H\nH") (natToStr 1)) pageNl) =
      start_webrepl_html (urlOfEndpoint ("H\nH") (natToStr 1)) pageNl := by
  decide

/-- C7 amended: for every page content and every endpoint whose canonical
connection url contains no line terminator, provisioning twice yields a
file byte-identical to provisioning once. -/
theorem provision_idem_amended : ∀ (url content : String), '\n' ∉ url.data →
    start_webrepl_html url (start_webrepl_html url content) =
      start_webrepl_html url content := by
  intro url content hu
  have h1 := splitLines_rewrite url content hu
  show String.mk
      ((splitLinesCh (start_webrepl_html url content).data).map (lineRewrite url)).flatten =
    start_webrepl_html url content
  rw [h1, List.map_map]
  have h2 : (splitLinesCh content.data).map (lineRewrite url ∘ lineRewrite url) =
      (splitLinesCh content.data).map (lineRewrite url) :=
    List.map_congr_left (fun a _ => lineRewrite_idem url a)
  rw [h2]
  rfl

theorem provision_idem_amended_witness :
    start_webrepl_html ("ws://a:1/") (start_webrepl_html ("ws://a:1/") pageNl) =
      start_webrepl_html ("ws://a:1/") pageNl :=
  provision_idem_amended ("ws://a:1/") pageNl (by decide)
